import Mathlib

/-
Verification development for the code_map parser subsystem
(app/domains/code_map/parsers of the moling-coding-service repository).

The parsers are thin regex-driven text scanners plus filesystem lookups.
We shallowly embed them:
  * a small backtracking regular-expression engine with Python re semantics
    for the constructs the source uses (character classes, greedy and lazy
    star, ordered alternation, groups, lookahead, word boundary, end of
    input, finditer scanning);
  * a pure model of the filesystem (list of file and directory entries with
    contents) together with the posix path operations and the recursive
    glob calls the source performs;
  * one Lean definition per source method, translated line by line.
-/

/- ===================== Regular expression engine ===================== -/

inductive Rx where
  | eps : Rx
  | cls : (Char → Bool) → Rx
  | cat : Rx → Rx → Rx
  | alt : Rx → Rx → Rx
  | star : Rx → Rx
  | starL : Rx → Rx
  | grp : Nat → Rx → Rx
  | look : Rx → Rx
  | wordB : Rx
  | eosR : Rx

/-- Word character in the sense of the Python regex escape for words
(ASCII letters, digits, underscore; the source only feeds source code text). -/
def wch (c : Char) : Bool := c.isAlphanum || c = '_'

/-- Whitespace in the sense of the Python regex whitespace escape. -/
def sch (c : Char) : Bool :=
  c = ' ' || c = '\t' || c = '\n' || c = '\r' || c = Char.ofNat 11 || c = Char.ofNat 12

abbrev Caps := List (Nat × Nat × Nat)

/-- Backtracking matcher in continuation passing style.  Alternation is
ordered, star is greedy, starL is lazy, exactly as in the Python re module.
Fuel only bounds the recursion depth; all patterns used here need little. -/
def mexec : Nat → Rx → List Char → Nat → Caps →
    (Nat → Caps → Option (Nat × Caps)) → Option (Nat × Caps)
  | 0, _, _, _, _, _ => none
  | _ + 1, .eps, _, i, cp, k => k i cp
  | _ + 1, .cls p, s, i, cp, k =>
    match s.get? i with
    | some c => if p c then k (i + 1) cp else none
    | none => none
  | f + 1, .cat a b, s, i, cp, k =>
    mexec f a s i cp (fun j cq => mexec f b s j cq k)
  | f + 1, .alt a b, s, i, cp, k =>
    match mexec f a s i cp k with
    | some r => some r
    | none => mexec f b s i cp k
  | f + 1, .star a, s, i, cp, k =>
    match mexec f a s i cp
        (fun j cq => if i < j then mexec f (.star a) s j cq k else none) with
    | some r => some r
    | none => k i cp
  | f + 1, .starL a, s, i, cp, k =>
    match k i cp with
    | some r => some r
    | none =>
      mexec f a s i cp
        (fun j cq => if i < j then mexec f (.starL a) s j cq k else none)
  | f + 1, .grp n a, s, i, cp, k =>
    mexec f a s i cp (fun j cq => k j ((n, i, j) :: cq))
  | f + 1, .look a, s, i, cp, k =>
    match mexec f a s i cp (fun j cq => some (j, cq)) with
    | some _ => k i cp
    | none => none
  | _ + 1, .wordB, s, i, cp, k =>
    let before := match i with
      | 0 => false
      | j + 1 => match s.get? j with | some c => wch c | none => false
    let after := match s.get? i with | some c => wch c | none => false
    if before != after then k i cp else none
  | _ + 1, .eosR, s, i, cp, k =>
    if i = s.length then k i cp else none

def rxFuel : Nat := 100000

structure MatchRes where
  mstart : Nat
  mend : Nat
  caps : Caps

/-- Try to match the pattern at one position. -/
def searchAt (r : Rx) (s : List Char) (i : Nat) : Option (Nat × Caps) :=
  mexec rxFuel r s i [] (fun j cp => some (j, cp))

/-- Leftmost match at or after position i, as the re search function. -/
def searchFromAux (r : Rx) (s : List Char) : Nat → Nat → Option MatchRes
  | 0, _ => none
  | fuel + 1, i =>
    match searchAt r s i with
    | some (j, cp) => some ⟨i, j, cp⟩
    | none => if i < s.length then searchFromAux r s fuel (i + 1) else none

def searchFrom (r : Rx) (s : List Char) (i : Nat) : Option MatchRes :=
  searchFromAux r s (s.length + 1 - i) i

/-- All non-overlapping matches from left to right, as the re finditer
function: scanning resumes at the end of each match (one further for an
empty match). -/
def finditerAux (r : Rx) (s : List Char) : Nat → Nat → List MatchRes
  | 0, _ => []
  | fuel + 1, i =>
    match searchFrom r s i with
    | none => []
    | some m => m :: finditerAux r s fuel (max m.mend (m.mstart + 1))

def findAll (r : Rx) (s : List Char) : List MatchRes :=
  finditerAux r s (s.length + 1) 0

def capLookup (cp : Caps) (n : Nat) : Option (Nat × Nat) :=
  match cp with
  | [] => none
  | (m, i, j) :: rest => if m = n then some (i, j) else capLookup rest n

def sliceStr (s : List Char) (i j : Nat) : String :=
  String.mk ((s.drop i).take (j - i))

/-- Text captured by a group in a match (none if the group did not take
part in the match, the last repetition if it took part several times). -/
def grpStr (s : List Char) (m : MatchRes) (n : Nat) : Option String :=
  (capLookup m.caps n).map (fun ij => sliceStr s ij.1 ij.2)

namespace Rx

def lit1 (c : Char) : Rx := .cls (fun d => d = c)

def lit (t : String) : Rx := t.data.foldr (fun c r => .cat (lit1 c) r) .eps

def opt1 (a : Rx) : Rx := .alt a .eps

def plus1 (a : Rx) : Rx := .cat a (.star a)

def catL : List Rx → Rx
  | [] => .eps
  | [a] => a
  | a :: rest => .cat a (catL rest)

def altL : List Rx → Rx
  | [] => .eps
  | [a] => a
  | a :: rest => .alt a (altL rest)

end Rx

/- ====================== Strings and posix paths ====================== -/

/-- Split a character list at a separator character, as the Python split
method with a one character separator. -/
def splitOnChar (c : Char) : List Char → List (List Char)
  | [] => [[]]
  | x :: xs =>
    let r := splitOnChar c xs
    if x = c then [] :: r
    else
      match r with
      | h :: t => (x :: h) :: t
      | [] => [[x]]

def strSplit (s : String) (c : Char) : List String :=
  (splitOnChar c s.data).map String.mk

def strStarts (s p : String) : Bool := p.data.isPrefixOf s.data

def strEnds (s p : String) : Bool := p.data.isSuffixOf s.data

def containsSub (hay need : String) : Bool :=
  (List.range (hay.data.length + 1)).any
    (fun i => need.data.isPrefixOf (hay.data.drop i))

def strLower (s : String) : String := String.mk (s.data.map Char.toLower)

def strTrim (s : String) : String :=
  String.mk (((s.data.dropWhile sch).reverse.dropWhile sch).reverse)

def joinWith (sep : String) : List String → String
  | [] => ""
  | [a] => a
  | a :: rest => a ++ sep ++ joinWith sep rest

def lastIdxAux (c : Char) : List Char → Nat → Option Nat → Option Nat
  | [], _, acc => acc
  | x :: xs, i, acc => lastIdxAux c xs (i + 1) (if x = c then some i else acc)

/-- os.path.dirname for posix paths. -/
def dirname (p : String) : String :=
  match lastIdxAux '/' p.data 0 none with
  | none => ""
  | some i =>
    let head := p.data.take (i + 1)
    if head.all (· = '/') then String.mk head
    else String.mk (head.reverse.dropWhile (· = '/')).reverse

/-- os.path.basename for posix paths. -/
def basename (p : String) : String :=
  match lastIdxAux '/' p.data 0 none with
  | none => p
  | some i => String.mk (p.data.drop (i + 1))

/-- os.path.join for posix paths, in the two argument form the source uses. -/
def pjoin (a b : String) : String :=
  if strStarts b "/" then b
  else if a = "" then b
  else if strEnds a "/" then a ++ b
  else a ++ "/" ++ b

def normCompsAux : List String → List String → List String
  | [], acc => acc.reverse
  | c :: rest, acc =>
    if c = "" || c = "." then normCompsAux rest acc
    else if c = ".." then normCompsAux rest (acc.drop 1)
    else normCompsAux rest (c :: acc)

/-- os.path.abspath on an already absolute posix path: collapse dot,
dotdot and empty components. -/
def normPath (p : String) : String :=
  "/" ++ joinWith "/" (normCompsAux (strSplit p '/') [])

/-- Extension part of os.path.splitext: from the last dot of the basename,
provided some earlier character of the basename is not a dot. -/
def extOf (p : String) : String :=
  let bn := (basename p).data
  match lastIdxAux '.' bn 0 none with
  | none => ""
  | some i =>
    if (bn.take i).any (· ≠ '.') then String.mk (bn.drop i) else ""

/-- Stem part of os.path.splitext. -/
def stemOf (name : String) : String :=
  let bn := name.data
  match lastIdxAux '.' bn 0 none with
  | none => name
  | some i =>
    if (bn.take i).any (· ≠ '.') then String.mk (bn.take i) else name

/- ========================= Filesystem model ========================= -/

inductive FKind where
  | file : FKind
  | dir : FKind
deriving DecidableEq, BEq, Repr

structure FSEntry where
  path : String
  kind : FKind
  content : String
deriving DecidableEq, Repr

/-- A filesystem is a finite list of entries; the list order is the
enumeration order that glob and listdir expose. -/
abbrev FS := List FSEntry

def isfile (fs : FS) (p : String) : Bool :=
  fs.any (fun e => e.path == p && e.kind == FKind.file)

def isdir (fs : FS) (p : String) : Bool :=
  fs.any (fun e => e.path == p && e.kind == FKind.dir)

/-- Reading a file: succeeds only on file entries (opening a directory
raises in the source, which every caller turns into skipping the entry). -/
def readFile (fs : FS) (p : String) : Option String :=
  (fs.find? (fun e => e.path == p && e.kind == FKind.file)).map (·.content)

/-- Path components strictly below the base, when the path lies below it. -/
def underBase (base p : String) : Option (List String) :=
  let bb := (base ++ "/").data
  if bb.isPrefixOf p.data then
    some ((splitOnChar '/' (p.data.drop bb.length)).map String.mk)
  else none

/-- The recursive double star wildcard of glob matches zero or more path
components, none of them empty or starting with a dot (glob never lets a
wildcard match hidden names). -/
def midOk (comps : List String) : Bool :=
  comps.all (fun c => c != "" && !(strStarts c "."))

/-- glob.glob(os.path.join(base, "**", name), recursive=True) for a literal
final component: files and directories below base whose basename is exactly
name, with no hidden directory crossed by the double star wildcard. -/
def globName (fs : FS) (base name : String) : List String :=
  fs.filterMap (fun e =>
    match underBase base e.path with
    | some comps =>
      if midOk comps.dropLast && comps.getLastD "" == name then some e.path else none
    | none => none)

/-- glob.glob(os.path.join(base, "**", "*." ++ ext), recursive=True): the
star wildcard never matches a leading dot. -/
def globExt (fs : FS) (base ext : String) : List String :=
  fs.filterMap (fun e =>
    match underBase base e.path with
    | some comps =>
      let last := comps.getLastD ""
      if midOk comps.dropLast && strEnds last ("." ++ ext) && !(strStarts last ".")
      then some e.path else none
    | none => none)

/-- os.listdir: names of entries directly inside a directory. -/
def listdir (fs : FS) (d : String) : List String :=
  fs.filterMap (fun e =>
    match underBase d e.path with
    | some [name] => if name != "" then some name else none
    | _ => none)

/- ================== Data model shared by the parsers ================== -/

namespace CodeMap

/-- Modelled from the spec: the Function record declared in BaseParser.py,
which is not among the given sources; every parser constructs it with a
name and a raw body text, so those two fields are modelled (the spec also
lists a start line field that no parser in the sources ever sets). -/
structure Function where
  name : String
  body : String
deriving DecidableEq, Repr

/-- Shared shape of the line numbering loops: 1-based index of the first
line satisfying the predicate, 0 when none does. -/
def lineLoop (p : String → Bool) : Nat → List String → Nat
  | _, [] => 0
  | i, l :: ls => if p l then i else lineLoop p (i + 1) ls

/- ========================== PythonParser ========================== -/

namespace PythonParser

/-- Character class of the import regexes: not whitespace, comma or
semicolon. -/
def nsc (c : Char) : Bool := !(sch c || c = ',' || c = ';')

/-- Not whitespace. -/
def nws (c : Char) : Bool := !sch c

/-- Regex of plain import statements in extract_imports. -/
def importRx : Rx :=
  Rx.catL [Rx.lit "import", Rx.plus1 (.cls sch),
    .grp 1 (Rx.plus1 (.cls nsc)),
    .star (Rx.catL [.star (.cls sch), Rx.lit1 ',', .star (.cls sch),
      .grp 2 (Rx.plus1 (.cls nsc))])]

/-- Regex of from import statements in extract_imports. -/
def fromImportRx : Rx :=
  Rx.catL [Rx.lit "from", Rx.plus1 (.cls sch), .grp 1 (Rx.plus1 (.cls nws)),
    Rx.plus1 (.cls sch), Rx.lit "import", Rx.plus1 (.cls sch),
    .alt (Rx.catL [.grp 2 (Rx.plus1 (.cls nsc)),
        .star (Rx.catL [.star (.cls sch), Rx.lit1 ',', .star (.cls sch),
          .grp 3 (Rx.plus1 (.cls nsc))])])
      (Rx.lit1 '*')]

def import_matches (file_content : String) : List MatchRes :=
  findAll importRx file_content.data

def from_import_matches (file_content : String) : List MatchRes :=
  findAll fromImportRx file_content.data

/-- PythonParser.extract_imports: one pass over the plain import regex
appending groups one and two of each match, then one pass over the
from-import regex appending group one. -/
def extract_imports (file_content : String) : List String :=
  let s := file_content.data
  let part1 := (import_matches file_content).foldl (fun acc m =>
    let acc1 := match grpStr s m 1 with
      | some g => if g ≠ "" && strTrim g ≠ "" then acc ++ [g] else acc
      | none => acc
    match grpStr s m 2 with
      | some g => if g ≠ "" && strTrim g ≠ "" then acc1 ++ [g] else acc1
      | none => acc1) []
  let part2 := (from_import_matches file_content).filterMap (fun m => grpStr s m 1)
  part1 ++ part2

/-- Regex of function definitions in extract_functions (with the DOTALL
flag, so the lazy repeated dot matches newlines too). -/
def funcRx : Rx :=
  Rx.catL [Rx.lit "def", Rx.plus1 (.cls sch), .grp 1 (Rx.plus1 (.cls wch)),
    .star (.cls sch), Rx.lit1 '(', .star (.cls (fun c => c ≠ ')')), Rx.lit1 ')',
    .star (.cls sch),
    Rx.opt1 (Rx.catL [Rx.lit "->", .star (.cls sch),
      Rx.plus1 (.cls (fun c => c ≠ ':'))]),
    .star (.cls sch), Rx.lit1 ':',
    .grp 2 (.starL (.cls (fun _ => true))),
    .look (.alt (Rx.catL [Rx.lit1 '\n', .alt (Rx.lit "def") (Rx.lit "class")]) .eosR)]

def extract_functions (file_content : String) : List Function :=
  let s := file_content.data
  (findAll funcRx s).map (fun m =>
    { name := (grpStr s m 1).getD "", body := (grpStr s m 2).getD "" })

/-- Builtin and keyword names filtered out of bare calls. -/
def builtins : List String :=
  ["print", "len", "int", "str", "list", "dict", "set", "tuple", "if", "while", "for"]

def callRx : Rx :=
  Rx.catL [.grp 1 (Rx.plus1 (.cls wch)), .star (.cls sch), Rx.lit1 '(']

def methodCallRx : Rx :=
  Rx.catL [.grp 1 (Rx.plus1 (.cls wch)), Rx.lit1 '.', .grp 2 (Rx.plus1 (.cls wch)),
    .star (.cls sch), Rx.lit1 '(']

/-- First loop of extract_function_calls: bare call matches, with the
builtin filter. -/
def bare_call_names (function_body : String) : List String :=
  let s := function_body.data
  ((findAll callRx s).filterMap (fun m => grpStr s m 1)).filter
    (fun name => !(builtins.contains name))

/-- Second loop of extract_function_calls: method call matches, appending
group two with no filter. -/
def method_call_names (function_body : String) : List String :=
  let s := function_body.data
  (findAll methodCallRx s).filterMap (fun m => grpStr s m 2)

def extract_function_calls (function_body : String) : List String :=
  bare_call_names function_body ++ method_call_names function_body

/-- Loop over the dot separated parts of a relative import specifier in
resolve_import_path: empty parts move one directory up, nonempty parts try
the module file then the package init file, and on failure the loop moves
to the next part with the directory unchanged, exactly as in the source. -/
def relLoop (fs : FS) : List String → String → Option String
  | [], _ => none
  | part :: rest, dir_path =>
    if part = "" then relLoop fs rest (dirname dir_path)
    else
      let module_path := pjoin dir_path (part ++ ".py")
      if isfile fs module_path then some module_path
      else
        let package_path := pjoin dir_path part
        let init_path := pjoin package_path "__init__.py"
        if isdir fs package_path && isfile fs init_path then some init_path
        else relLoop fs rest dir_path

/-- Package directory loop of the absolute branch of resolve_import_path. -/
def pkgLoop (fs : FS) : List String → Option String
  | [] => none
  | d :: rest =>
    if isdir fs d then
      let init_path := pjoin d "__init__.py"
      if isfile fs init_path then some init_path else pkgLoop fs rest
    else pkgLoop fs rest

/-- PythonParser.resolve_import_path over the filesystem model: relative
specifiers walk the dotted parts from the current directory; absolute
specifiers take the first project wide glob hit on the first dotted
component, then the first package directory with an init file. -/
def resolve_import_path (fs : FS) (imp current_file_path base_path : String) :
    Option String :=
  let current_dir := dirname current_file_path
  if strStarts imp "." then
    relLoop fs (strSplit imp '.') current_dir
  else
    let module_name := (strSplit imp '.').headD ""
    match globName fs base_path (module_name ++ ".py") with
    | p :: _ => some p
    | [] => pkgLoop fs (globName fs base_path module_name)

/-- Regex of the line scan in get_function_line_number (the function name
is inserted with re.escape, hence literally). -/
def defLineRx (function_name : String) : Rx :=
  Rx.catL [Rx.lit "def", Rx.plus1 (.cls sch), Rx.lit function_name,
    .star (.cls sch), Rx.lit1 '(']

def line_matches (function_name line : String) : Bool :=
  (searchFrom (defLineRx function_name) line.data 0).isSome

def get_function_line_number (file_content function_name : String) : Nat :=
  lineLoop (line_matches function_name) 1 (strSplit file_content '\n')

end PythonParser

/-- Body group shared by the curly brace function regexes of the Go,
JavaScript, C++ and C# parsers: a fixed nesting pattern allowing at most
two levels of braces inside the body. -/
def nbr (c : Char) : Bool := c ≠ '{' && c ≠ '}'

def braceBody2 : Rx :=
  Rx.catL [.star (.cls nbr),
    .star (Rx.catL [Rx.lit1 '{', .star (.cls nbr),
      .star (Rx.catL [Rx.lit1 '{', .star (.cls nbr), Rx.lit1 '}', .star (.cls nbr)]),
      Rx.lit1 '}', .star (.cls nbr)])]

/- ============================ GoParser ============================ -/

namespace GoParser

/-- Regex of function declarations in extract_functions. -/
def funcRx : Rx :=
  Rx.catL [Rx.lit "func", Rx.plus1 (.cls sch),
    Rx.opt1 (Rx.catL [Rx.lit1 '(', .star (.cls (fun c => c ≠ ')')), Rx.lit1 ')',
      Rx.plus1 (.cls sch)]),
    .grp 1 (Rx.plus1 (.cls wch)), .star (.cls sch),
    Rx.lit1 '(', .star (.cls (fun c => c ≠ ')')), Rx.lit1 ')',
    Rx.opt1 (Rx.catL [.star (.cls sch), .star (.cls (fun c => c ≠ '{'))]),
    Rx.lit1 '{', .grp 2 braceBody2, Rx.lit1 '}']

def ctlKw : List String := ["if", "for", "switch", "select", "range"]

def extract_functions (file_content : String) : List Function :=
  let s := file_content.data
  (findAll funcRx s).filterMap (fun m =>
    let name := (grpStr s m 1).getD ""
    if !(ctlKw.contains name) then
      some { name := name, body := (grpStr s m 2).getD "" }
    else none)

def goBuiltins : List String :=
  ["if", "for", "switch", "select", "range", "make", "new", "len", "cap",
   "append", "copy", "delete", "panic", "recover"]

def callRx : Rx :=
  Rx.catL [.grp 1 (Rx.plus1 (.cls wch)), .star (.cls sch), Rx.lit1 '(']

def methodCallRx : Rx :=
  Rx.catL [.grp 1 (Rx.plus1 (.cls wch)), Rx.lit1 '.', .grp 2 (Rx.plus1 (.cls wch)),
    .star (.cls sch), Rx.lit1 '(']

/-- GoParser.extract_function_calls: bare calls filtered by the builtin
set, then method calls appended without filter, then a third pass over the
same method regex appending group two when not already collected. -/
def extract_function_calls (function_body : String) : List String :=
  let s := function_body.data
  let calls1 := ((findAll callRx s).filterMap (fun m => grpStr s m 1)).filter
    (fun name => !(goBuiltins.contains name))
  let calls2 := calls1 ++ (findAll methodCallRx s).filterMap (fun m => grpStr s m 2)
  (findAll methodCallRx s).foldl (fun acc m =>
    match grpStr s m 2 with
    | some fn => if acc.contains fn then acc else acc ++ [fn]
    | none => acc) calls2

def standard_libs : List String :=
  ["fmt", "os", "io", "net", "http", "json", "time", "strings", "strconv",
   "context", "sync", "log", "errors", "sort", "math", "crypto", "encoding",
   "database", "html", "image", "mime", "path", "regexp", "runtime", "testing",
   "unsafe", "archive", "bufio", "bytes", "compress", "container", "debug",
   "go", "hash", "index", "plugin", "reflect", "text", "unicode"]

/-- GoParser._is_standard_library: first path segment in the fixed set, or
no dot anywhere in the specifier. -/
def is_standard_library (imp : String) : Bool :=
  standard_libs.contains ((strSplit imp '/').headD "") || !(imp.data.contains '.')

/-- GoParser._find_go_mod_file: walk parent directories looking for go.mod;
the fuel only bounds the walk, which shortens the path on every step. -/
def find_go_mod_file (fs : FS) : Nat → String → Option String
  | 0, _ => none
  | fuel + 1, current =>
    if current = "" then none
    else
      let candidate := pjoin current "go.mod"
      if isfile fs candidate then some candidate
      else
        let parent := dirname current
        if parent = current then none else find_go_mod_file fs fuel parent

/-- Package directory loop of the absolute branch of resolve_import_path. -/
def dirLoop (fs : FS) : List String → Option String
  | [] => none
  | d :: rest =>
    if isdir fs d then
      match (listdir fs d).filter (fun f => strEnds f ".go") with
      | g :: _ => some (pjoin d g)
      | [] => dirLoop fs rest
    else dirLoop fs rest

def resolve_import_path (fs : FS) (imp current_file_path base_path : String) :
    Option String :=
  let current_dir := dirname current_file_path
  if strStarts imp "./" || strStarts imp "../" then
    let resolved_path := normPath (pjoin current_dir imp)
    let fromDir :=
      if isdir fs resolved_path then
        match (listdir fs resolved_path).filter (fun f => strEnds f ".go") with
        | g :: _ => some (pjoin resolved_path g)
        | [] => none
      else none
    match fromDir with
    | some r => some r
    | none =>
      let resolved2 := if extOf resolved_path = "" then resolved_path ++ ".go"
        else resolved_path
      if isfile fs resolved2 then some resolved2 else none
  else
    if is_standard_library imp then none
    else
      let package_name := (strSplit imp '/').getLastD ""
      match dirLoop fs (globName fs base_path package_name) with
      | some r => some r
      | none =>
        match find_go_mod_file fs (current_dir.length + 2) current_dir with
        | some gm =>
          let module_root := dirname gm
          let full_path := pjoin module_root imp
          if isdir fs full_path then
            match (listdir fs full_path).filter (fun f => strEnds f ".go") with
            | g :: _ => some (pjoin full_path g)
            | [] => none
          else none
        | none => none

def funcLineRx (function_name : String) : Rx :=
  Rx.catL [Rx.lit "func", Rx.plus1 (.cls sch),
    Rx.opt1 (Rx.catL [Rx.lit1 '(', .star (.cls (fun c => c ≠ ')')), Rx.lit1 ')',
      Rx.plus1 (.cls sch)]),
    Rx.lit function_name, .star (.cls sch), Rx.lit1 '(']

def line_matches (function_name line : String) : Bool :=
  (searchFrom (funcLineRx function_name) line.data 0).isSome

def get_function_line_number (file_content function_name : String) : Nat :=
  lineLoop (line_matches function_name) 1 (strSplit file_content '\n')

end GoParser

/- ======================== JavaScriptParser ======================== -/

namespace JavaScriptParser

def declKw : Rx := Rx.altL [Rx.lit "const", Rx.lit "let", Rx.lit "var"]

/-- Regex of function declarations (three alternatives: named function,
function expression assignment, arrow function assignment). -/
def funcRx : Rx :=
  Rx.catL [
    Rx.altL [
      Rx.catL [Rx.lit "function", Rx.plus1 (.cls sch), .grp 1 (Rx.plus1 (.cls wch))],
      Rx.catL [declKw, Rx.plus1 (.cls sch), .grp 2 (Rx.plus1 (.cls wch)),
        .star (.cls sch), Rx.lit1 '=', .star (.cls sch), Rx.lit "function"],
      Rx.catL [declKw, Rx.plus1 (.cls sch), .grp 3 (Rx.plus1 (.cls wch)),
        .star (.cls sch), Rx.lit1 '=', .star (.cls sch),
        Rx.lit1 '(', .star (.cls (fun c => c ≠ ')')), Rx.lit1 ')',
        .star (.cls sch), Rx.lit "=>"]],
    .star (.cls sch), Rx.lit1 '{', .grp 4 braceBody2, Rx.lit1 '}']

/-- Regex of the class method pass of extract_functions. -/
def methodRx : Rx :=
  Rx.catL [.grp 1 (Rx.plus1 (.cls wch)), .star (.cls sch),
    Rx.lit1 '(', .star (.cls (fun c => c ≠ ')')), Rx.lit1 ')',
    .star (.cls sch), Rx.lit1 '{', .grp 2 braceBody2, Rx.lit1 '}']

/-- JavaScriptParser.extract_functions: the function declaration pass, then
the method pass whose only filter is that the lowercased name is not the
word function. -/
def extract_functions (file_content : String) : List Function :=
  let s := file_content.data
  let part1 := (findAll funcRx s).map (fun m =>
    let name := match grpStr s m 1 with
      | some g => g
      | none => match grpStr s m 2 with
        | some g => g
        | none => (grpStr s m 3).getD ""
    { name := name, body := (grpStr s m 4).getD "" })
  let part2 := (findAll methodRx s).filterMap (fun m =>
    let name := (grpStr s m 1).getD ""
    if strLower name ≠ "function" then
      some { name := name, body := (grpStr s m 2).getD "" }
    else none)
  part1 ++ part2

def jsKw : List String := ["if", "for", "while", "switch", "catch"]

def callRx : Rx :=
  Rx.catL [.grp 1 (Rx.plus1 (.cls wch)), .star (.cls sch), Rx.lit1 '(']

def methodCallRx : Rx :=
  Rx.catL [.grp 1 (Rx.plus1 (.cls wch)), Rx.lit1 '.', .grp 2 (Rx.plus1 (.cls wch)),
    .star (.cls sch), Rx.lit1 '(']

/-- JavaScriptParser.extract_function_calls: filtered bare calls, then
method calls appended without filter. -/
def extract_function_calls (function_body : String) : List String :=
  let s := function_body.data
  ((findAll callRx s).filterMap (fun m => grpStr s m 1)).filter
    (fun name => !(jsKw.contains name))
  ++ (findAll methodCallRx s).filterMap (fun m => grpStr s m 2)

end JavaScriptParser

/- =========================== CppParser =========================== -/

namespace CppParser

/-- Character class of the optional return type and qualifier text before a
function name. -/
def preCls (c : Char) : Bool :=
  c.isAlphanum || c = '_' || c = '*' || c = '&' || sch c || c = ':' ||
    c = '<' || c = '>' || c = ','

def funcRx : Rx :=
  Rx.catL [Rx.opt1 (Rx.catL [Rx.plus1 (.cls preCls), Rx.plus1 (.cls sch)]),
    .grp 1 (Rx.plus1 (.cls wch)), .star (.cls sch),
    Rx.lit1 '(', .star (.cls (fun c => c ≠ ')')), Rx.lit1 ')', .star (.cls sch),
    Rx.opt1 (Rx.lit "const"), .star (.cls sch),
    Rx.opt1 (Rx.lit "noexcept"), .star (.cls sch),
    Rx.opt1 (Rx.lit "override"), .star (.cls sch),
    Rx.opt1 (Rx.lit "final"), .star (.cls sch),
    Rx.opt1 (Rx.catL [Rx.lit1 '=', .star (.cls sch), Rx.lit "default"]),
    .star (.cls sch),
    Rx.opt1 (Rx.catL [Rx.lit1 '=', .star (.cls sch), Rx.lit "delete"]),
    .star (.cls sch),
    Rx.opt1 (Rx.catL [Rx.lit1 '=', .star (.cls sch), Rx.lit1 '0']),
    .star (.cls sch),
    Rx.lit1 '{', .grp 2 braceBody2, Rx.lit1 '}']

def cppKw : List String := ["if", "for", "while", "switch", "catch"]

/-- CppParser.extract_functions: keep a match unless its name starts with a
tilde (impossible, since the name group admits no tilde) or is a control
flow keyword. -/
def extract_functions (file_content : String) : List Function :=
  let s := file_content.data
  (findAll funcRx s).filterMap (fun m =>
    let name := (grpStr s m 1).getD ""
    if !(strStarts name "~") && !(cppKw.contains name) then
      some { name := name, body := (grpStr s m 2).getD "" }
    else none)

/-- CppParser.resolve_import_path: include specifiers with a slash search
the project for the basename; plain names try the current directory then a
project wide glob; the first glob hit is returned in both cases. -/
def resolve_import_path (fs : FS) (imp current_file_path base_path : String) :
    Option String :=
  let current_dir := dirname current_file_path
  if imp.data.contains '/' || imp.data.contains '\\' then
    match globName fs base_path (basename imp) with
    | p :: _ => some p
    | [] => none
  else
    let local_path := pjoin current_dir imp
    if isfile fs local_path then some local_path
    else
      match globName fs base_path imp with
      | p :: _ => some p
      | [] => none

end CppParser

/- =========================== JavaParser =========================== -/

namespace JavaParser

/-- Package declaration regex of resolve_import_path; the package text is
inserted with re.escape, hence literally. -/
def pkgRx (pkg : String) : Rx :=
  Rx.catL [Rx.lit "package", Rx.plus1 (.cls sch), Rx.lit pkg, Rx.lit1 ';']

def pkg_search (pkg content : String) : Bool :=
  (searchFrom (pkgRx pkg) content.data 0).isSome

/-- One iteration of the candidate file loop of resolve_import_path:
reading a directory raises and is skipped; a wildcard import accepts any
file whose package declaration matches; otherwise the file stem must equal
the class name case insensitively and the package declaration must match. -/
def tryFile (fs : FS) (pkg class_name file_path : String) : Option String :=
  match readFile fs file_path with
  | none => none
  | some content =>
    if class_name = "" then
      if pkg_search pkg content then some file_path else none
    else if strLower (stemOf (basename file_path)) = strLower class_name then
      if pkg_search pkg content then some file_path else none
    else none

def fileLoop (fs : FS) (pkg class_name : String) : List String → Option String
  | [] => none
  | fp :: rest =>
    match tryFile fs pkg class_name fp with
    | some r => some r
    | none => fileLoop fs pkg class_name rest

def resolve_import_path (fs : FS) (imp current_file_path base_path : String) :
    Option String :=
  let parts := strSplit imp '.'
  let class_name0 := parts.getLastD ""
  let class_name := if class_name0 = "*" then "" else class_name0
  fileLoop fs (joinWith "." parts.dropLast) class_name (globExt fs base_path "java")

end JavaParser

/- ========================== CSharpParser ========================== -/

namespace CSharpParser

/-- One of the twelve optional modifier groups of the method regex. -/
def modRx : Rx :=
  Rx.catL [Rx.opt1 (Rx.altL [Rx.lit "public", Rx.lit "private", Rx.lit "protected",
    Rx.lit "internal", Rx.lit "static", Rx.lit "virtual", Rx.lit "override",
    Rx.lit "abstract", Rx.lit "async"]), .star (.cls sch)]

def typeCls (c : Char) : Bool :=
  c.isAlphanum || c = '_' || c = '<' || c = '>' || c = ',' || sch c ||
    c = '[' || c = ']'

def methodRx : Rx :=
  Rx.catL (List.replicate 12 modRx ++
    [Rx.opt1 (Rx.catL [Rx.plus1 (.cls typeCls), Rx.plus1 (.cls sch)]),
     .grp 1 (Rx.plus1 (.cls wch)), .star (.cls sch),
     Rx.lit1 '(', .star (.cls (fun c => c ≠ ')')), Rx.lit1 ')', .star (.cls sch),
     Rx.opt1 (Rx.catL [Rx.lit "where", Rx.plus1 (.cls sch),
       Rx.plus1 (.cls (fun c => c ≠ '{'))]),
     .star (.cls sch), Rx.lit1 '{', .grp 2 braceBody2, Rx.lit1 '}'])

def csKw : List String := ["if", "for", "while", "switch", "catch", "get", "set"]

/-- CSharpParser.extract_functions: keep a match unless its name starts
with a tilde (impossible, since the name group admits no tilde) or is in
the keyword set. -/
def extract_functions (file_content : String) : List Function :=
  let s := file_content.data
  (findAll methodRx s).filterMap (fun m =>
    let name := (grpStr s m 1).getD ""
    if !(strStarts name "~") && !(csKw.contains name) then
      some { name := name, body := (grpStr s m 2).getD "" }
    else none)

def csCallKw : List String :=
  ["if", "for", "while", "switch", "catch", "new", "typeof", "sizeof"]

/-- Call regex of extract_function_calls: one optional receiver segment,
then the captured called name.  The except fallback of the source is
unreachable because nothing in the try block raises. -/
def callRx : Rx :=
  Rx.catL [Rx.opt1 (Rx.catL [Rx.plus1 (.cls wch), Rx.lit1 '.']),
    .grp 1 (Rx.plus1 (.cls wch)), .star (.cls sch), Rx.lit1 '(']

def extract_function_calls (function_body : String) : List String :=
  let s := function_body.data
  ((findAll callRx s).filterMap (fun m => grpStr s m 1)).filter
    (fun name => !(csCallKw.contains name))

def nameLineRx (function_name : String) : Rx :=
  Rx.catL [.wordB, Rx.lit function_name, .star (.cls sch), Rx.lit1 '(']

def type_keywords : List String := ["void", "int", "string", "bool", "object", "Task"]

/-- Predicate of the line scan of get_function_line_number: the name regex
matches and the line contains one of six hard coded return type keywords. -/
def line_matches (function_name line : String) : Bool :=
  (searchFrom (nameLineRx function_name) line.data 0).isSome &&
    type_keywords.any (fun kw => containsSub line kw)

def get_function_line_number (file_content function_name : String) : Nat :=
  lineLoop (line_matches function_name) 1 (strSplit file_content '\n')

end CSharpParser

/- ===================== Concrete filesystem fixtures ===================== -/

/-- Project with a same named module file in an unrelated subtree, whose
content is empty, hence declares nothing. -/
def fsA : FS := [
  { path := "/proj", kind := .dir, content := "" },
  { path := "/proj/zzz", kind := .dir, content := "" },
  { path := "/proj/zzz/foo.py", kind := .file, content := "" }]

/-- Project of the relative import scenario: a.py next to b.py. -/
def fsB : FS := [
  { path := "/proj", kind := .dir, content := "" },
  { path := "/proj/src", kind := .dir, content := "" },
  { path := "/proj/src/a.py", kind := .file, content := "from . import b" },
  { path := "/proj/src/b.py", kind := .file, content := "" }]

/-- Project whose only module of the looked up name lies under
node_modules. -/
def fsC : FS := [
  { path := "/proj", kind := .dir, content := "" },
  { path := "/proj/node_modules", kind := .dir, content := "" },
  { path := "/proj/node_modules/lp", kind := .dir, content := "" },
  { path := "/proj/node_modules/lp/foo.py", kind := .file, content := "" }]

/-- Project whose only header of the looked up name lies under dist. -/
def fsD : FS := [
  { path := "/proj", kind := .dir, content := "" },
  { path := "/proj/dist", kind := .dir, content := "" },
  { path := "/proj/dist/config.h", kind := .file, content := "" }]

/-- Project whose only module of the looked up name lies under dist. -/
def fsDist : FS := [
  { path := "/proj", kind := .dir, content := "" },
  { path := "/proj/dist", kind := .dir, content := "" },
  { path := "/proj/dist/util.py", kind := .file, content := "" }]

/-- Java project with two same named classes in different packages. -/
def fsE : FS := [
  { path := "/proj", kind := .dir, content := "" },
  { path := "/proj/src", kind := .dir, content := "" },
  { path := "/proj/src/Foo.java", kind := .file,
    content := "package com.a;\nclass Foo \x7b\x7d" },
  { path := "/proj/other", kind := .dir, content := "" },
  { path := "/proj/other/Foo.java", kind := .file,
    content := "package wrong.pkg;\nclass Foo \x7b\x7d" }]

/-- Go project containing a dot free internal package that a search would
find. -/
def fsF : FS := [
  { path := "/proj", kind := .dir, content := "" },
  { path := "/proj/utils", kind := .dir, content := "" },
  { path := "/proj/utils/u.go", kind := .file, content := "package utils" }]

/-- Project whose only header of the looked up name has empty content. -/
def fsH : FS := [
  { path := "/proj", kind := .dir, content := "" },
  { path := "/proj/aaa", kind := .dir, content := "" },
  { path := "/proj/aaa/foo.h", kind := .file, content := "" }]

end CodeMap

/- ========================= Helper lemmas ========================= -/

theorem searchFromAux_start_ge (r : Rx) (s : List Char) :
    ∀ (fuel i : Nat) (m : MatchRes), searchFromAux r s fuel i = some m →
      i ≤ m.mstart := by
  intro fuel
  induction fuel with
  | zero => intro i m h; simp [searchFromAux] at h
  | succ f ih =>
    intro i m h
    simp only [searchFromAux] at h
    split at h
    · cases h; exact Nat.le_refl i
    · split at h
      · exact Nat.le_trans (Nat.le_succ i) (ih (i + 1) m h)
      · cases h

theorem searchFrom_start_ge (r : Rx) (s : List Char) (i : Nat) (m : MatchRes)
    (h : searchFrom r s i = some m) : i ≤ m.mstart :=
  searchFromAux_start_ge r s (s.length + 1 - i) i m h

theorem finditerAux_mem_ge (r : Rx) (s : List Char) :
    ∀ (fuel i : Nat) (m : MatchRes), m ∈ finditerAux r s fuel i →
      i ≤ m.mstart := by
  intro fuel
  induction fuel with
  | zero => intro i m h; simp [finditerAux] at h
  | succ f ih =>
    intro i m h
    simp only [finditerAux] at h
    split at h
    · simp at h
    · next m0 hs =>
        rcases List.mem_cons.mp h with h0 | h1
        · subst h0; exact searchFrom_start_ge r s i m hs
        · have h2 := ih (max m0.mend (m0.mstart + 1)) m h1
          have h3 : i ≤ m0.mstart := searchFrom_start_ge r s i m0 hs
          have h4 : i ≤ max m0.mend (m0.mstart + 1) :=
            Nat.le_trans (Nat.le_succ_of_le h3) (Nat.le_max_right _ _)
          exact Nat.le_trans h4 h2

theorem finditerAux_pairwise (r : Rx) (s : List Char) :
    ∀ (fuel i : Nat),
      (finditerAux r s fuel i).Pairwise (fun a b => a.mstart < b.mstart) := by
  intro fuel
  induction fuel with
  | zero => intro i; simp [finditerAux]
  | succ f ih =>
    intro i
    simp only [finditerAux]
    split
    · simp
    · next m0 hs =>
        refine List.Pairwise.cons ?_ (ih (max m0.mend (m0.mstart + 1)))
        intro b hb
        have h2 := finditerAux_mem_ge r s f (max m0.mend (m0.mstart + 1)) b hb
        have h3 : m0.mstart + 1 ≤ max m0.mend (m0.mstart + 1) := Nat.le_max_right _ _
        omega

theorem findAll_pairwise (r : Rx) (s : List Char) :
    (findAll r s).Pairwise (fun a b => a.mstart < b.mstart) :=
  finditerAux_pairwise r s (s.length + 1) 0

theorem lineLoop_le (p : String → Bool) :
    ∀ (ls : List String) (i : Nat), CodeMap.lineLoop p i ls ≤ i - 1 + ls.length := by
  intro ls
  induction ls with
  | nil => intro i; simp [CodeMap.lineLoop]
  | cons l t ih =>
    intro i
    simp only [CodeMap.lineLoop]
    split
    · simp only [List.length_cons]; omega
    · have h := ih (i + 1)
      simp only [List.length_cons]
      omega

theorem lineLoop_eq_zero_iff (p : String → Bool) :
    ∀ (ls : List String) (i : Nat), 1 ≤ i →
      (CodeMap.lineLoop p i ls = 0 ↔ ∀ l ∈ ls, p l = false) := by
  intro ls
  induction ls with
  | nil => intro i _; simp [CodeMap.lineLoop]
  | cons l t ih =>
    intro i hi
    simp only [CodeMap.lineLoop]
    split
    · constructor
      · intro h0; omega
      · intro hall
        have := hall l (List.mem_cons_self l t)
        simp_all
    · constructor
      · intro h0
        intro x hx
        rcases List.mem_cons.mp hx with hx0 | hx1
        · subst hx0; simp_all
        · exact ((ih (i + 1) (by omega)).mp h0) x hx1
      · intro hall
        exact (ih (i + 1) (by omega)).mpr (fun x hx => hall x (List.mem_cons_of_mem l hx))

theorem java_tryFile_sound (fs : FS) (pkg cn fp p : String)
    (h : CodeMap.JavaParser.tryFile fs pkg cn fp = some p) :
    ∃ content, readFile fs p = some content ∧
      CodeMap.JavaParser.pkg_search pkg content = true := by
  unfold CodeMap.JavaParser.tryFile at h
  split at h
  · cases h
  · next content hr =>
      split at h
      · split at h
        · cases h; exact ⟨content, hr, by assumption⟩
        · cases h
      · split at h
        · split at h
          · cases h; exact ⟨content, hr, by assumption⟩
          · cases h
        · cases h

theorem java_fileLoop_sound (fs : FS) (pkg cn : String) :
    ∀ (l : List String) (p : String),
      CodeMap.JavaParser.fileLoop fs pkg cn l = some p →
      ∃ content, readFile fs p = some content ∧
        CodeMap.JavaParser.pkg_search pkg content = true := by
  intro l
  induction l with
  | nil => intro p h; simp [CodeMap.JavaParser.fileLoop] at h
  | cons fp rest ih =>
    intro p h
    simp only [CodeMap.JavaParser.fileLoop] at h
    split at h
    · next r ht => cases h; exact java_tryFile_sound fs pkg cn fp p ht
    · exact ih p h

theorem cpp_extract_name_not_kw (s : String) (f : CodeMap.Function)
    (hf : f ∈ CodeMap.CppParser.extract_functions s) :
    CodeMap.CppParser.cppKw.contains f.name = false := by
  unfold CodeMap.CppParser.extract_functions at hf
  obtain ⟨m, hm, hstep⟩ := List.mem_filterMap.mp hf
  dsimp only at hstep
  split at hstep
  · next hcond =>
      cases hstep
      simp only [Bool.and_eq_true, Bool.not_eq_true'] at hcond
      exact hcond.2
  · cases hstep

theorem py_calls_mem (b n : String)
    (h : n ∈ CodeMap.PythonParser.extract_function_calls b) :
    n ∈ CodeMap.PythonParser.method_call_names b ∨
      CodeMap.PythonParser.builtins.contains n = false := by
  unfold CodeMap.PythonParser.extract_function_calls at h
  rcases List.mem_append.mp h with h1 | h2
  · right
    unfold CodeMap.PythonParser.bare_call_names at h1
    have h3 := (List.mem_filter.mp h1).2
    simpa using h3
  · left; exact h2

/- ========================= Claim theorems ========================= -/

/-- C1 counterexample: for the absolute specifier foo.bar,
PythonParser.resolve_import_path returns a project wide search hit whose
content is empty, hence a file that declares nothing at all; the result is
determined by the file name alone, with no declaration plausibility check. -/
theorem c1_counterexample :
    CodeMap.PythonParser.resolve_import_path CodeMap.fsA "foo.bar"
        "/proj/src/a.py" "/proj" = some "/proj/zzz/foo.py" ∧
    readFile CodeMap.fsA "/proj/zzz/foo.py" = some "" :=
  ⟨by decide, by decide⟩

/-- C1 amended: JavaParser verifies the package declaration of a candidate
file before returning it (every returned path has readable content on
which the package declaration regex matches), while PythonParser and
CppParser return the first name matching search hit without reading the
candidate file, so no declaration check happens there. -/
theorem c1_theorem :
    (∀ (fs : FS) (imp cur base p : String),
        CodeMap.JavaParser.resolve_import_path fs imp cur base = some p →
        ∃ content, readFile fs p = some content ∧
          CodeMap.JavaParser.pkg_search
            (joinWith "." ((strSplit imp '.').dropLast)) content = true) ∧
    (CodeMap.CppParser.resolve_import_path CodeMap.fsH "foo.h"
        "/proj/src/m.cpp" "/proj" = some "/proj/aaa/foo.h" ∧
      readFile CodeMap.fsH "/proj/aaa/foo.h" = some "") := by
  refine ⟨?_, by decide, by decide⟩
  intro fs imp cur base p h
  simp only [CodeMap.JavaParser.resolve_import_path] at h
  exact java_fileLoop_sound fs _ _ _ p h

/-- C1 witness: the Java soundness statement applied to a concrete
filesystem where the declaration check selects the right package. -/
theorem c1_theorem_witness :
    ∃ content, readFile CodeMap.fsE "/proj/src/Foo.java" = some content ∧
      CodeMap.JavaParser.pkg_search
        (joinWith "." ((strSplit "com.a.Foo" '.').dropLast)) content = true :=
  c1_theorem.1 CodeMap.fsE "com.a.Foo" "/x" "/proj" "/proj/src/Foo.java" (by decide)

/-- C2 code bug: the from import statement in the scenario of the claim
yields the specifier consisting of a single dot (plus the spurious entry b
produced by the unanchored plain import regex); resolving that dot
specifier only walks parent directories and returns none, even though
/proj/src/b.py exists, so neither /proj/src/b.py nor a package entry is
ever checked, contradicting the claim and the docstring of the source. -/
theorem c2_theorem :
    CodeMap.PythonParser.extract_imports "from . import b" = ["b", "."] ∧
    isfile CodeMap.fsB "/proj/src/b.py" = true ∧
    CodeMap.PythonParser.resolve_import_path CodeMap.fsB "."
      "/proj/src/a.py" "/proj" = none :=
  ⟨by decide, by decide, by decide⟩

/-- C3 counterexample: PythonParser.resolve_import_path returns a file
lying under node_modules, so the configured ignore rules are not applied
to filesystem search results. -/
theorem c3_counterexample :
    CodeMap.PythonParser.resolve_import_path CodeMap.fsC "foo"
      "/proj/src/a.py" "/proj" = some "/proj/node_modules/lp/foo.py" :=
  by decide

/-- C3 amended: no ignore filter is consulted anywhere in
resolve_import_path; the project wide searches match on names only, so
files under excluded folders such as dist are returned whenever they are
the first name match. -/
theorem c3_theorem :
    CodeMap.CppParser.resolve_import_path CodeMap.fsD "config.h"
        "/proj/src/m.cpp" "/proj" = some "/proj/dist/config.h" ∧
    CodeMap.PythonParser.resolve_import_path CodeMap.fsDist "util"
        "/proj/src/a.py" "/proj" = some "/proj/dist/util.py" :=
  ⟨by decide, by decide⟩

/-- C4 counterexample: a member call whose method name is on the Python
builtin blacklist still contributes that name, because the method call
pass appends group two without any filter. -/
theorem c4_counterexample :
    CodeMap.PythonParser.extract_function_calls "x.print()" = ["print"] :=
  by decide

/-- C4 amended: the per language blacklist is applied only to the bare
call pass; every blacklisted name in the output of
PythonParser.extract_function_calls comes from the unfiltered member call
pass (which does return the called method name), and the Go and JavaScript
parsers likewise let blacklisted member calls through. -/
theorem c4_theorem :
    (∀ (b n : String), n ∈ CodeMap.PythonParser.extract_function_calls b →
        n ∈ CodeMap.PythonParser.method_call_names b ∨
          CodeMap.PythonParser.builtins.contains n = false) ∧
    CodeMap.GoParser.extract_function_calls "x.make()" = ["make"] ∧
    CodeMap.JavaScriptParser.extract_function_calls "p.catch()" = ["catch"] := by
  refine ⟨?_, by decide, by decide⟩
  intro b n h
  exact py_calls_mem b n h

/-- C4 witness: the amended statement applied to the member call of a
blacklisted name. -/
theorem c4_theorem_witness :
    "print" ∈ CodeMap.PythonParser.method_call_names "x.print()" ∨
      CodeMap.PythonParser.builtins.contains "print" = false :=
  c4_theorem.1 "x.print()" "print" (by decide)

/-- C5 counterexample: the module specifier of a from-import statement
appearing first in the file is listed after the specifier of a later
plain-import statement, because extract_imports concatenates two passes. -/
theorem c5_counterexample :
    CodeMap.PythonParser.extract_imports "from a import b\nimport c" =
      ["b", "c", "a"] := by decide

/-- C5 amended: within each regex pass the matches occur at strictly
increasing text positions, so each pass follows source order and the
result is deterministic, but the full output is the plain import pass
followed by the from import pass, which breaks global source order. -/
theorem c5_theorem :
    (∀ s : String, (CodeMap.PythonParser.import_matches s).Pairwise
        (fun a b => a.mstart < b.mstart)) ∧
    (∀ s : String, (CodeMap.PythonParser.from_import_matches s).Pairwise
        (fun a b => a.mstart < b.mstart)) ∧
    CodeMap.PythonParser.extract_imports "from x import y\nimport z" =
      ["y", "z", "x"] := by
  refine ⟨?_, ?_, by decide⟩
  · intro s; exact findAll_pairwise _ _
  · intro s; exact findAll_pairwise _ _

/-- C6 counterexample: a Go function whose body nests braces three levels
deep is not extracted at all, so its body is not captured in full. -/
theorem c6_counterexample :
    CodeMap.GoParser.extract_functions
      "func h() \x7b \x7b \x7b \x7b \x7d \x7d \x7d \x7d" = [] := by decide

/-- C6 amended: the curly brace parsers capture a body in full only up to
the fixed nesting depth hard coded in the regex (two levels of nested
blocks inside the body for GoParser); a function nesting deeper is dropped
entirely rather than truncated. -/
theorem c6_theorem :
    CodeMap.GoParser.extract_functions
        "func f() \x7b a \x7b b \x7b \x7d \x7d \x7d" =
      [{ name := "f", body := " a \x7b b \x7b \x7d \x7d " }] ∧
    CodeMap.GoParser.extract_functions
        "func g() \x7b x \x7b y \x7b z \x7b \x7d \x7d \x7d \x7d" = [] :=
  ⟨by decide, by decide⟩

/-- C7 counterexample: the method pass of
JavaScriptParser.extract_functions has no keyword filter, so an if
statement with call like syntax is returned as a function named if. -/
theorem c7_counterexample :
    CodeMap.JavaScriptParser.extract_functions "if (x) \x7b y(); \x7d" =
      [{ name := "if", body := " y(); " }] := by decide

/-- C7 amended: CppParser (like the Go, Java and C# variants) filters the
control flow keywords out of extracted function names, but
JavaScriptParser does not filter its method pass, and constructors are not
excluded (the tilde test of the C++ and C# variants can never fire because
the name group admits no tilde): a C# constructor is returned. -/
theorem c7_theorem :
    (∀ (s : String) (f : CodeMap.Function),
        f ∈ CodeMap.CppParser.extract_functions s →
        CodeMap.CppParser.cppKw.contains f.name = false) ∧
    CodeMap.CSharpParser.extract_functions "public Foo() \x7b \x7d" =
      [{ name := "Foo", body := " " }] := by
  refine ⟨?_, by decide⟩
  intro s f hf
  exact cpp_extract_name_not_kw s f hf

/-- C7 witness: the keyword freeness statement applied to a concrete C++
extraction. -/
theorem c7_theorem_witness :
    CodeMap.CppParser.cppKw.contains
      (CodeMap.Function.mk "f" " ").name = false :=
  c7_theorem.1 "void f() \x7b \x7d" { name := "f", body := " " } (by decide)

/-- C8: the pure text operations are total functions of their input in
this model (they are defined for every string and the line number is
always at most the number of lines), and on malformed input they return
the empty result or zero rather than failing. -/
theorem c8_theorem :
    (∀ (s n : String), CodeMap.PythonParser.get_function_line_number s n ≤
        (strSplit s '\n').length) ∧
    CodeMap.PythonParser.extract_functions "def ((( :" = [] ∧
    CodeMap.PythonParser.extract_imports "][;;%%" = [] ∧
    CodeMap.JavaScriptParser.extract_functions "]]]\x7d\x7b" = [] ∧
    CodeMap.CSharpParser.extract_function_calls "((((" = [] ∧
    CodeMap.PythonParser.get_function_line_number "%%%" "f" = 0 := by
  refine ⟨?_, by decide, by decide, by decide, by decide, by decide⟩
  intro s n
  have h := lineLoop_le (CodeMap.PythonParser.line_matches n) (strSplit s '\n') 1
  simpa using h

/-- C9 counterexample: CSharpParser.get_function_line_number returns zero
for a method that the same parser extracts, because its line scan also
requires one of six hard coded return type keywords on the line and the
return type here is user defined. -/
theorem c9_counterexample :
    CodeMap.CSharpParser.extract_functions "public MyType Foo() \x7b \x7d" =
      [{ name := "Foo", body := " " }] ∧
    CodeMap.CSharpParser.get_function_line_number
      "public MyType Foo() \x7b \x7d" "Foo" = 0 :=
  ⟨by decide, by decide⟩

/-- C9 amended: get_function_line_number returns the 1 based index of the
first line on which the language specific declaration pattern matches and
zero exactly when no line matches; for C# the pattern additionally demands
one of six return type keywords on the line, so declarations with other
return types yield zero (while ones with listed keywords are found). -/
theorem c9_theorem :
    (∀ (content name : String),
      (CodeMap.PythonParser.get_function_line_number content name = 0 ↔
        ∀ line ∈ strSplit content '\n',
          CodeMap.PythonParser.line_matches name line = false)) ∧
    (∀ (content name : String),
      (CodeMap.GoParser.get_function_line_number content name = 0 ↔
        ∀ line ∈ strSplit content '\n',
          CodeMap.GoParser.line_matches name line = false)) ∧
    CodeMap.CSharpParser.get_function_line_number
      "public void Foo() \x7b \x7d" "Foo" = 1 := by
  refine ⟨?_, ?_, by decide⟩
  · intro content name
    exact lineLoop_eq_zero_iff _ _ 1 (by omega)
  · intro content name
    exact lineLoop_eq_zero_iff _ _ 1 (by omega)

/-- C9 witness: the zero characterisation applied to a file with no
matching declaration line. -/
theorem c9_theorem_witness :
    CodeMap.PythonParser.get_function_line_number "x = 1" "foo" = 0 :=
  (c9_theorem.1 "x = 1" "foo").mpr (by decide)

/-- C10: a Go import specifier that is not relative and contains no dot is
classified as standard library by GoParser.is_standard_library, so
GoParser.resolve_import_path returns none without searching the project. -/
theorem c10_theorem (fs : FS) (imp cur base : String)
    (h1 : strStarts imp "./" = false) (h2 : strStarts imp "../" = false)
    (h3 : imp.data.contains '.' = false) :
    CodeMap.GoParser.resolve_import_path fs imp cur base = none := by
  have hstd : CodeMap.GoParser.is_standard_library imp = true := by
    unfold CodeMap.GoParser.is_standard_library
    rw [h3]
    simp
  unfold CodeMap.GoParser.resolve_import_path
  simp [h1, h2, hstd]

/-- C10 witness: a dot free internal package import resolves to none even
though a matching package directory with Go files exists in the project. -/
theorem c10_theorem_witness :
    CodeMap.GoParser.resolve_import_path CodeMap.fsF "utils"
      "/proj/main.go" "/proj" = none :=
  c10_theorem CodeMap.fsF "utils" "/proj/main.go" "/proj"
    (by decide) (by decide) (by decide)
